import Mathlib

/-!
Shallow embedding of the signal-derivation engine of `src/v8.py`
(functions `get_vix_status` and `analyze_stock`) over exact rational
arithmetic.  Prices and volumes are rationals; an indicator cell that the
source leaves as NaN (insufficient window history, or a 0/0 in the RSI)
is modelled as `none : Option ℚ`, and the NaN comparison semantics of the
source (any comparison involving NaN is False) is modelled by the
`oLE`, `oGE`, `oLT`, `oGT` helpers below.
-/

/-- One OHLCV bar.  The source stores these as DataFrame rows with columns
Open, High, Low, Close, Volume; `time` models the DatetimeIndex entry
(the engine never reads it, but the Series invariant mentions it). -/
structure Bar where
  time : Int
  openPrice : ℚ
  high : ℚ
  low : ℚ
  close : ℚ
  volume : ℚ
deriving DecidableEq, Repr

/-- The Close column of a series. -/
def closes (bars : List Bar) : List ℚ := bars.map Bar.close

/-- The Volume column of a series. -/
def volumes (bars : List Bar) : List ℚ := bars.map Bar.volume

/-- Strictly increasing timestamp check for the Series invariant. -/
def timesIncr : List Int → Bool
  | [] => true
  | [_] => true
  | x :: y :: rest => decide (x < y) && timesIncr (y :: rest)

/-- Comparison of two possibly-undefined cells, with NaN semantics:
`a <= b` is False when either side is NaN. -/
def oLE : Option ℚ → Option ℚ → Bool
  | some a, some b => decide (a ≤ b)
  | _, _ => false

/-- `a >= b` with NaN semantics. -/
def oGE : Option ℚ → Option ℚ → Bool
  | some a, some b => decide (b ≤ a)
  | _, _ => false

/-- `a < b` with NaN semantics. -/
def oLT : Option ℚ → Option ℚ → Bool
  | some a, some b => decide (a < b)
  | _, _ => false

/-- `a > b` with NaN semantics. -/
def oGT : Option ℚ → Option ℚ → Bool
  | some a, some b => decide (b < a)
  | _, _ => false

/-- Value of the SMA-seeded exponential moving average at the LAST index of
`c`, for window `len`: `ta.ema(close, length)` seeds index `len - 1` with the
simple average of the first `len` closes and then applies
`y = a * x + (1 - a) * y_prev` with `a = 2 / (len + 1)`.  The cell at index
`i` of the EMA column depends only on `c.take (i + 1)`, so the column entry
at `iloc[-2]` is `emaLast len c.dropLast`.  `none` when the series is
shorter than the window (the source column is all-NaN there). -/
def emaLast (len : Nat) (c : List ℚ) : Option ℚ :=
  if len = 0 ∨ c.length < len then none
  else
    let a : ℚ := 2 / ((len : ℚ) + 1)
    let seed : ℚ := (c.take len).sum / (len : ℚ)
    some ((c.drop len).foldl (fun prev x => a * x + (1 - a) * prev) seed)

/-- Consecutive close-to-close deltas (`close.diff()`, minus its leading
NaN entry). -/
def diffs : List ℚ → List ℚ
  | [] => []
  | [_] => []
  | x :: y :: rest => (y - x) :: diffs (y :: rest)

/-- Numerator of a pandas `ewm(adjust=True)` weighted mean with decay `r`:
`sum of r ^ (k - 1 - j) * xs_j` computed as a left fold. -/
def ewmNum (r : ℚ) (xs : List ℚ) : ℚ :=
  xs.foldl (fun acc x => r * acc + x) 0

/-- Denominator of the same weighted mean: `sum of r ^ j` over `n` terms. -/
def ewmDen (r : ℚ) (n : Nat) : ℚ :=
  (List.range n).foldl (fun acc _ => r * acc + 1) 0

/-- Wilder moving average used inside `ta.rsi`: `ewm(alpha = 1/14,
adjust=True)` mean of `xs`, i.e. decay `r = 13/14`. -/
def rma14 (xs : List ℚ) : ℚ :=
  ewmNum (13 / 14) xs / ewmDen (13 / 14) xs.length

/-- Value of `ta.rsi(close, length=14)` at the LAST index of `c`:
`100 * avgGain / (avgGain + avgLoss)` where the averages are `rma14` of the
clipped deltas.  NaN (`none`) until 14 deltas exist (min_periods), and also
when `avgGain + avgLoss = 0` (the 0/0 the source hits on constant closes). -/
def rsiLast (c : List ℚ) : Option ℚ :=
  let d := diffs c
  if d.length < 14 then none
  else
    let p := rma14 (d.map fun x => max x 0)
    let n := rma14 (d.map fun x => max (-x) 0)
    if p + n = 0 then none else some (100 * p / (p + n))

/-- Value of `ta.sma(volume, length)` at the LAST index of `vs`: the simple
average of the trailing `len` entries; `none` when fewer than `len` bars
exist. -/
def smaLast (len : Nat) (vs : List ℚ) : Option ℚ :=
  if len = 0 ∨ vs.length < len then none
  else some ((vs.drop (vs.length - len)).sum / (len : ℚ))

/-- Standard pivot point of a bar: `(high + low + close) / 3`. -/
def pivotOf (b : Bar) : ℚ := (b.high + b.low + b.close) / 3

/-- Resistance level R1 `= 2 * pivot - low`. -/
def res1 (b : Bar) : ℚ := 2 * pivotOf b - b.low

/-- Support level S1 `= 2 * pivot - high`. -/
def sup1 (b : Bar) : ℚ := 2 * pivotOf b - b.high

/-- The `info` dict built by `analyze_stock`, field for field.  `chgPct`
and `rsi` are optional: the source produces a non-finite float for them on
a zero open, respectively on an RSI 0/0, modelled as `none`. -/
structure Info where
  price : ℚ
  chgPct : Option ℚ
  rsi : Option ℚ
  volRatio : Option ℚ
  trend : String
  res : ℚ
  sup : ℚ
  msg : String
  level : String
deriving DecidableEq, Repr

/-- Body of `analyze_stock` past the length guard: indicator cells at the
last two rows, pivot levels, volume ratio, trend, the alert if-chain, and
the assembled `info` dict.  `lastB` is `df.iloc[-1]`; the `iloc[-2]`
indicator cells are the EMA values over `closes.dropLast` (the EMA cell at
a row depends only on the closes up to that row). -/
def snapshotFrom (bars : List Bar) (lastB : Bar) (emaF emaS : Nat) : Info :=
  let c := closes bars
  let eFL := emaLast emaF c
  let eSL := emaLast emaS c
  let eFP := emaLast emaF c.dropLast
  let eSP := emaLast emaS c.dropLast
  let close := lastB.close
  let r1 := res1 lastB
  let s1 := sup1 lastB
  let volMA := smaLast 10 (volumes bars)
  let vr : Option ℚ :=
    match volMA with
    | some m => if m ≠ 0 then some (lastB.volume / m) else some 1
    | none => none
  let trend := if oGT eFL eSL then " Bullish" else " Bearish"
  let ml : String × String :=
    if oLE eFP eSP && oGT eFL eSL then ("↗️ 黃金交叉", "error")
    else if oGE eFP eSP && oLT eFL eSL then ("↘️ 死亡交叉", "error")
    else if close ≥ r1 * (998 / 1000) then ("🧱 接近壓力", "warning")
    else ("監控中", "success")
  let cp : Option ℚ :=
    if lastB.openPrice ≠ 0 then
      some ((close - lastB.openPrice) / lastB.openPrice * 100)
    else none
  { price := close
    chgPct := cp
    rsi := rsiLast c
    volRatio := vr
    trend := trend
    res := r1
    sup := s1
    msg := ml.1
    level := ml.2 }

/-- `analyze_stock(df, v_chg, ema_f, ema_s)`: returns `(None, None)` when
`df is None or len(df) < 30`, otherwise the augmented frame and the `info`
dict.  `vChg` is accepted and ignored exactly as in the source.  The first
component models the returned DataFrame by its bars (the added indicator
columns are the functions above applied to its prefixes). -/
def analyze_stock (df : Option (List Bar)) (vChg : ℚ) (emaF emaS : Nat) :
    Option (List Bar) × Option Info :=
  match df with
  | none => (none, none)
  | some bars =>
    if bars.length < 30 then (none, none)
    else
      match bars.reverse with
      | lastB :: _ :: _ => (some bars, some (snapshotFrom bars lastB emaF emaS))
      | _ => (none, none)

/-- `get_vix_status()`, abstracted over the fetched ^VIX series (the fetch
itself is the external provider): `(20.0, 0.0)` when the series is absent
or has fewer than 2 bars, else the latest close and the difference of the
latest two closes. -/
def get_vix_status (vix : Option (List Bar)) : ℚ × ℚ :=
  match vix with
  | none => (20, 0)
  | some bars =>
    match bars.reverse with
    | b1 :: b0 :: _ => (b1.close, b1.close - b0.close)
    | _ => (20, 0)

/-- Alert severity vocabulary of the spec; the source encodes these as the
streamlit level strings via `levelOf`. -/
inductive Severity
  | normal
  | caution
  | critical
deriving DecidableEq, Repr

/-- Rendering of a severity as the level string the source stores:
critical bars use `st.error`, caution `st.warning`, normal `st.success`. -/
def levelOf : Severity → String
  | Severity.critical => "error"
  | Severity.caution => "warning"
  | Severity.normal => "success"

/-- Golden-cross condition: previous fast EMA ≤ previous slow EMA and
latest fast EMA > latest slow EMA (false on undefined cells). -/
def goldenCond (bars : List Bar) (emaF emaS : Nat) : Bool :=
  oLE (emaLast emaF (closes bars).dropLast) (emaLast emaS (closes bars).dropLast) &&
    oGT (emaLast emaF (closes bars)) (emaLast emaS (closes bars))

/-- Death-cross condition: previous fast EMA ≥ previous slow EMA and
latest fast EMA < latest slow EMA (false on undefined cells). -/
def deathCond (bars : List Bar) (emaF emaS : Nat) : Bool :=
  oGE (emaLast emaF (closes bars).dropLast) (emaLast emaS (closes bars).dropLast) &&
    oLT (emaLast emaF (closes bars)) (emaLast emaS (closes bars))

/-- Near-resistance condition: latest close ≥ 0.998 × R1. -/
def nearResCond (lastB : Bar) : Bool :=
  decide (lastB.close ≥ res1 lastB * (998 / 1000))

/-- Modelled from the spec: the ordered list of alert rules, highest
priority first, each a (predicate, message, severity) triple. -/
def alertRules (bars : List Bar) (lastB : Bar) (emaF emaS : Nat) :
    List (Bool × String × Severity) :=
  [(goldenCond bars emaF emaS, "↗️ 黃金交叉", Severity.critical),
   (deathCond bars emaF emaS, "↘️ 死亡交叉", Severity.critical),
   (nearResCond lastB, "🧱 接近壓力", Severity.caution)]

/-- Modelled from the spec: evaluate an ordered rule list top to bottom,
first match wins; no match yields the monitoring message with severity
normal. -/
def firstMatch : List (Bool × String × Severity) → String × Severity
  | [] => ("監控中", Severity.normal)
  | (b, m, s) :: rest => if b then (m, s) else firstMatch rest

/-- A constant bar: open 100, high 110, low 90, close 100, volume 1, at
minute `i`. -/
def mkBar (i : Nat) : Bar :=
  { time := (i : Int), openPrice := 100, high := 110, low := 90, close := 100, volume := 1 }

/-- A series of `n` constant bars with strictly increasing timestamps. -/
def constBars (n : Nat) : List Bar := (List.range n).map mkBar

/-- A 30-bar series whose last bar has open exactly 0. -/
def barsZeroOpen : List Bar :=
  constBars 29 ++ [{ time := 29, openPrice := 0, high := 110, low := 90, close := 100, volume := 1 }]


/-- A flat bar at minute `i` with all four prices equal to `c`. -/
def flatBar (i : Nat) (c : ℚ) : Bar :=
  { time := (i : Int), openPrice := c, high := c, low := c, close := c, volume := 1 }

/-- A two-bar volatility-index series with closes 18 and 19. -/
def vixSeries : List Bar := [flatBar 0 18, flatBar 1 19]

/-! Helper lemmas (not claim theorems). -/

theorem foldl_ema_const (a v : ℚ) :
    ∀ k, List.foldl (fun prev x => a * x + (1 - a) * prev) v (List.replicate k v) = v
  | 0 => rfl
  | k + 1 => by
    rw [List.replicate_succ, List.foldl_cons, show a * v + (1 - a) * v = v by ring]
    exact foldl_ema_const a v k

theorem emaLast_replicate (len n : Nat) (v : ℚ) (h0 : len ≠ 0) (h : len ≤ n) :
    emaLast len (List.replicate n v) = some v := by
  unfold emaLast
  rw [if_neg (by simp [List.length_replicate, h0]; omega)]
  rw [List.take_replicate, List.drop_replicate, Nat.min_eq_left h]
  rw [List.sum_replicate, nsmul_eq_mul]
  rw [mul_div_cancel_left₀ _ (show ((len : ℚ)) ≠ 0 by exact_mod_cast h0)]
  exact congrArg some (foldl_ema_const _ v _)

theorem diffs_replicate (v : ℚ) :
    ∀ n, diffs (List.replicate (n + 1) v) = List.replicate n 0
  | 0 => rfl
  | n + 1 => by
    show diffs (v :: v :: List.replicate n v) = List.replicate (n + 1) 0
    rw [show diffs (v :: v :: List.replicate n v)
          = (v - v) :: diffs (v :: List.replicate n v) from rfl]
    rw [sub_self, show (v :: List.replicate n v) = List.replicate (n + 1) v from rfl,
      diffs_replicate v n]
    rfl

theorem ewmNum_replicate_zero (r : ℚ) : ∀ k, ewmNum r (List.replicate k 0) = 0 := by
  intro k
  have aux : ∀ m, List.foldl (fun acc x => r * acc + x) 0 (List.replicate m (0 : ℚ)) = 0 := by
    intro m
    induction m with
    | zero => rfl
    | succ m ih => rw [List.replicate_succ, List.foldl_cons, mul_zero, add_zero]; exact ih
  exact aux k

theorem rsiLast_replicate (v : ℚ) (n : Nat) (h : 15 ≤ n) :
    rsiLast (List.replicate n v) = none := by
  obtain ⟨m, rfl⟩ : ∃ m, n = m + 1 := ⟨n - 1, by omega⟩
  unfold rsiLast
  rw [diffs_replicate]
  rw [if_neg (by simp [List.length_replicate]; omega)]
  rw [List.map_replicate, List.map_replicate]
  rw [show ((0 : ℚ) ⊔ 0) = 0 by simp, show ((-(0 : ℚ)) ⊔ 0) = 0 by simp]
  unfold rma14
  rw [ewmNum_replicate_zero, zero_div]
  simp

theorem smaLast_replicate (len n : Nat) (v : ℚ) (h0 : len ≠ 0) (h : len ≤ n) :
    smaLast len (List.replicate n v) = some v := by
  unfold smaLast
  rw [if_neg (by simp [List.length_replicate, h0]; omega)]
  rw [List.length_replicate, List.drop_replicate, show n - (n - len) = len by omega]
  rw [List.sum_replicate, nsmul_eq_mul]
  rw [mul_div_cancel_left₀ _ (show ((len : ℚ)) ≠ 0 by exact_mod_cast h0)]

theorem closes_constBars (n : Nat) : closes (constBars n) = List.replicate n 100 := by
  unfold closes constBars
  rw [List.map_map]
  have : (Bar.close ∘ mkBar) = fun _ => (100 : ℚ) := by funext i; rfl
  rw [this, List.map_const', List.length_range]

theorem volumes_constBars (n : Nat) : volumes (constBars n) = List.replicate n 1 := by
  unfold volumes constBars
  rw [List.map_map]
  have : (Bar.volume ∘ mkBar) = fun _ => (1 : ℚ) := by funext i; rfl
  rw [this, List.map_const', List.length_range]

theorem analyze_some_eq (bars : List Bar) (lastB b2 : Bar) (t : List Bar) (vChg : ℚ)
    (emaF emaS : Nat) (hrev : bars.reverse = lastB :: b2 :: t) (h30 : 30 ≤ bars.length) :
    analyze_stock (some bars) vChg emaF emaS =
      (some bars, some (snapshotFrom bars lastB emaF emaS)) := by
  simp only [analyze_stock]
  rw [if_neg (show ¬bars.length < 30 by omega), hrev]

theorem ewmFold_nonneg (r : ℚ) (hr : 0 ≤ r) :
    ∀ (xs : List ℚ) (acc : ℚ), 0 ≤ acc → (∀ x ∈ xs, 0 ≤ x) →
      0 ≤ xs.foldl (fun a x => r * a + x) acc
  | [], acc, hacc, _ => hacc
  | x :: xs, acc, hacc, hxs => by
    rw [List.foldl_cons]
    exact ewmFold_nonneg r hr xs (r * acc + x)
      (add_nonneg (mul_nonneg hr hacc) (hxs x (List.mem_cons_self x xs)))
      (fun y hy => hxs y (List.mem_cons_of_mem x hy))

theorem ewmNum_nonneg (r : ℚ) (hr : 0 ≤ r) (xs : List ℚ) (hxs : ∀ x ∈ xs, 0 ≤ x) :
    0 ≤ ewmNum r xs :=
  ewmFold_nonneg r hr xs 0 le_rfl hxs

theorem ewmDenFold_nonneg (r : ℚ) (hr : 0 ≤ r) :
    ∀ (l : List Nat) (acc : ℚ), 0 ≤ acc → 0 ≤ l.foldl (fun a _ => r * a + 1) acc
  | [], acc, hacc => hacc
  | x :: l, acc, hacc => by
    rw [List.foldl_cons]
    exact ewmDenFold_nonneg r hr l (r * acc + 1)
      (add_nonneg (mul_nonneg hr hacc) zero_le_one)

theorem ewmDen_nonneg (r : ℚ) (hr : 0 ≤ r) (n : Nat) : 0 ≤ ewmDen r n :=
  ewmDenFold_nonneg r hr (List.range n) 0 le_rfl

theorem rma14_nonneg (xs : List ℚ) (hxs : ∀ x ∈ xs, 0 ≤ x) : 0 ≤ rma14 xs :=
  div_nonneg (ewmNum_nonneg _ (by norm_num) xs hxs) (ewmDen_nonneg _ (by norm_num) _)

theorem rsiLast_bounds (c : List ℚ) (r : ℚ) (h : rsiLast c = some r) :
    0 ≤ r ∧ r ≤ 100 := by
  simp only [rsiLast] at h
  split at h
  · exact absurd h (by simp)
  · split at h
    · exact absurd h (by simp)
    · rename_i hpn
      have hp : 0 ≤ rma14 ((diffs c).map fun x => max x 0) := by
        refine rma14_nonneg _ (fun x hx => ?_)
        obtain ⟨y, _, rfl⟩ := List.mem_map.1 hx
        exact le_max_right y 0
      have hn : 0 ≤ rma14 ((diffs c).map fun x => max (-x) 0) := by
        refine rma14_nonneg _ (fun x hx => ?_)
        obtain ⟨y, _, rfl⟩ := List.mem_map.1 hx
        exact le_max_right (-y) 0
      have hpos : 0 < rma14 ((diffs c).map fun x => max x 0) +
          rma14 ((diffs c).map fun x => max (-x) 0) :=
        lt_of_le_of_ne (add_nonneg hp hn) (Ne.symm hpn)
      obtain rfl : 100 * rma14 ((diffs c).map fun x => max x 0) /
          (rma14 ((diffs c).map fun x => max x 0) +
            rma14 ((diffs c).map fun x => max (-x) 0)) = r := Option.some_inj.1 h
      constructor
      · exact div_nonneg (mul_nonneg (by norm_num) hp) hpos.le
      · rw [div_le_iff₀ hpos]
        linarith

theorem smaLast_some (len : Nat) (vs : List ℚ) (h0 : len ≠ 0) (h : len ≤ vs.length) :
    smaLast len vs = some ((vs.drop (vs.length - len)).sum / (len : ℚ)) := by
  unfold smaLast
  rw [if_neg (by omega)]

theorem snapshotFrom_rsi (bars : List Bar) (lastB : Bar) (emaF emaS : Nat) :
    (snapshotFrom bars lastB emaF emaS).rsi = rsiLast (closes bars) := rfl

theorem snapshotFrom_res (bars : List Bar) (lastB : Bar) (emaF emaS : Nat) :
    (snapshotFrom bars lastB emaF emaS).res = res1 lastB := rfl

theorem snapshotFrom_sup (bars : List Bar) (lastB : Bar) (emaF emaS : Nat) :
    (snapshotFrom bars lastB emaF emaS).sup = sup1 lastB := rfl

theorem snapshotFrom_volRatio (bars : List Bar) (lastB : Bar) (emaF emaS : Nat) :
    (snapshotFrom bars lastB emaF emaS).volRatio =
      (match smaLast 10 (volumes bars) with
        | some m => if m ≠ 0 then some (lastB.volume / m) else some 1
        | none => none) := rfl

theorem snapshotFrom_alert (bars : List Bar) (lastB : Bar) (emaF emaS : Nat) :
    ((snapshotFrom bars lastB emaF emaS).msg, (snapshotFrom bars lastB emaF emaS).level) =
      (if goldenCond bars emaF emaS then ("↗️ 黃金交叉", "error")
       else if deathCond bars emaF emaS then ("↘️ 死亡交叉", "error")
       else if nearResCond lastB then ("🧱 接近壓力", "warning")
       else ("監控中", "success")) := by
  simp only [snapshotFrom, goldenCond, deathCond, nearResCond, decide_eq_true_eq]

theorem firstMatch_alertRules (bars : List Bar) (lastB : Bar) (emaF emaS : Nat) :
    ((firstMatch (alertRules bars lastB emaF emaS)).1,
      levelOf (firstMatch (alertRules bars lastB emaF emaS)).2) =
      (if goldenCond bars emaF emaS then ("↗️ 黃金交叉", "error")
       else if deathCond bars emaF emaS then ("↘️ 死亡交叉", "error")
       else if nearResCond lastB then ("🧱 接近壓力", "warning")
       else ("監控中", "success")) := by
  simp only [alertRules, firstMatch]
  split_ifs <;> rfl

theorem oGT_and_oLT (x y : Option ℚ) : (oGT x y && oLT x y) = false := by
  cases x with
  | none => rfl
  | some a =>
    cases y with
    | none => rfl
    | some b =>
      simp only [oGT, oLT]
      rcases le_or_lt a b with h | h
      · rw [decide_eq_false (not_lt.2 h), Bool.false_and]
      · rw [decide_eq_false (not_lt.2 h.le), Bool.and_false]

/-! Claim theorems. -/

/-- C1: for every series accepted by `analyze_stock` (length at least 30),
the alert message and level equal the first-match evaluation of the ordered
rule list (golden cross critical, death cross critical, near resistance
caution, otherwise the monitoring message with severity normal), with
severities rendered by `levelOf`. -/
theorem alert_priority_order (bars : List Bar) (lastB b2 : Bar) (t : List Bar) (vChg : ℚ)
    (emaF emaS : Nat) (hrev : bars.reverse = lastB :: b2 :: t) (h30 : 30 ≤ bars.length) :
    ∃ i, (analyze_stock (some bars) vChg emaF emaS).2 = some i ∧
      i.msg = (firstMatch (alertRules bars lastB emaF emaS)).1 ∧
      i.level = levelOf (firstMatch (alertRules bars lastB emaF emaS)).2 := by
  have h := (snapshotFrom_alert bars lastB emaF emaS).trans
    (firstMatch_alertRules bars lastB emaF emaS).symm
  refine ⟨snapshotFrom bars lastB emaF emaS, ?_, ?_, ?_⟩
  · rw [analyze_some_eq bars lastB b2 t vChg emaF emaS hrev h30]
  · exact congrArg Prod.fst h
  · exact congrArg Prod.snd h

/-- Witness for C1 at a concrete 30-bar series. -/
theorem alert_priority_order_witness :
    (constBars 30).reverse = mkBar 29 :: mkBar 28 :: (constBars 30).reverse.drop 2 ∧
    30 ≤ (constBars 30).length ∧
    (∃ i, (analyze_stock (some (constBars 30)) 0 9 21).2 = some i ∧
      i.msg = (firstMatch (alertRules (constBars 30) (mkBar 29) 9 21)).1 ∧
      i.level = levelOf (firstMatch (alertRules (constBars 30) (mkBar 29) 9 21)).2) :=
  ⟨by decide, by decide,
    alert_priority_order (constBars 30) (mkBar 29) (mkBar 28)
      ((constBars 30).reverse.drop 2) 0 9 21 (by decide) (by decide)⟩

/-- C2: every present series shorter than 30 bars yields the sentinel
`(none, none)`: no exception, no partially populated snapshot (the
embedding is a total function and returns no `Info` at all). -/
theorem analyze_insufficient (bars : List Bar) (vChg : ℚ) (emaF emaS : Nat)
    (h : bars.length < 30) :
    analyze_stock (some bars) vChg emaF emaS = (none, none) := by
  simp only [analyze_stock]
  rw [if_pos h]

/-- Witness for C2 at a concrete 5-bar series. -/
theorem analyze_insufficient_witness :
    (constBars 5).length < 30 ∧ analyze_stock (some (constBars 5)) 0 9 21 = (none, none) :=
  ⟨by decide, analyze_insufficient (constBars 5) 0 9 21 (by decide)⟩

/-- C3: the source keeps the fixed floor of 30 bars even when the slow
window is larger.  With `emaS = 31` and a 31-bar series — below the
generalized floor `max(31, 14, 10) + 1 = 32` the claim requires — the code
still produces a snapshot, although the previous-row slow-EMA cell it
compares in the crossover rules is undefined. -/
theorem fixed_floor_produces_snapshot :
    ((analyze_stock (some (constBars 31)) 0 9 31).2).isSome = true ∧
      emaLast 31 ((closes (constBars 31)).dropLast) = none := by
  constructor
  · decide
  · decide

/-- C4: the percent-change computation is NOT guarded: on a series whose
latest bar has open exactly 0 the source divides by that zero open and the
snapshot carries a non-finite percent change (modelled `none`). -/
theorem zero_open_chg_undefined :
    ((analyze_stock (some barsZeroOpen) 0 9 21).2.map Info.chgPct) = some none := by
  decide

/-- C5: the golden-cross and death-cross conditions of the alert
classifier can never both hold in the same evaluation. -/
theorem crossover_exclusive (bars : List Bar) (emaF emaS : Nat) :
    (goldenCond bars emaF emaS && deathCond bars emaF emaS) = false := by
  unfold goldenCond deathCond
  cases hgt : oGT (emaLast emaF (closes bars)) (emaLast emaS (closes bars)) with
  | false => simp
  | true =>
    have h := oGT_and_oLT (emaLast emaF (closes bars)) (emaLast emaS (closes bars))
    rw [hgt, Bool.true_and] at h
    rw [h]
    simp

/-- C6: for every accepted series the volume ratio is the latest volume
divided by the 10-bar volume moving average, except that a zero moving
average yields exactly 1. -/
theorem volRatio_rule (bars : List Bar) (lastB b2 : Bar) (t : List Bar) (vChg : ℚ)
    (emaF emaS : Nat) (hrev : bars.reverse = lastB :: b2 :: t) (h30 : 30 ≤ bars.length) :
    ∃ i m, (analyze_stock (some bars) vChg emaF emaS).2 = some i ∧
      smaLast 10 (volumes bars) = some m ∧
      (m ≠ 0 → i.volRatio = some (lastB.volume / m)) ∧
      (m = 0 → i.volRatio = some 1) := by
  have hvlen : (volumes bars).length = bars.length := by simp [volumes]
  have hsma := smaLast_some 10 (volumes bars) (by omega) (by omega)
  refine ⟨snapshotFrom bars lastB emaF emaS, _, ?_, hsma, ?_, ?_⟩
  · rw [analyze_some_eq bars lastB b2 t vChg emaF emaS hrev h30]
  · intro hm
    rw [snapshotFrom_volRatio]
    simp only [hsma]
    rw [if_pos hm]
  · intro hm
    rw [snapshotFrom_volRatio]
    simp only [hsma]
    rw [if_neg (not_not_intro hm)]

/-- Witness for C6 at a concrete 30-bar series. -/
theorem volRatio_rule_witness :
    (constBars 30).reverse = mkBar 29 :: mkBar 28 :: (constBars 30).reverse.drop 2 ∧
    30 ≤ (constBars 30).length ∧
    (∃ i m, (analyze_stock (some (constBars 30)) 0 9 21).2 = some i ∧
      smaLast 10 (volumes (constBars 30)) = some m ∧
      (m ≠ 0 → i.volRatio = some ((mkBar 29).volume / m)) ∧
      (m = 0 → i.volRatio = some 1)) :=
  ⟨by decide, by decide,
    volRatio_rule (constBars 30) (mkBar 29) (mkBar 28)
      ((constBars 30).reverse.drop 2) 0 9 21 (by decide) (by decide)⟩

/-- C7: for every accepted series the snapshot levels satisfy the standard
pivot formulas on the latest bar. -/
theorem pivot_formulas (bars : List Bar) (lastB b2 : Bar) (t : List Bar) (vChg : ℚ)
    (emaF emaS : Nat) (hrev : bars.reverse = lastB :: b2 :: t) (h30 : 30 ≤ bars.length) :
    ∃ i, (analyze_stock (some bars) vChg emaF emaS).2 = some i ∧
      i.res = 2 * ((lastB.high + lastB.low + lastB.close) / 3) - lastB.low ∧
      i.sup = 2 * ((lastB.high + lastB.low + lastB.close) / 3) - lastB.high := by
  refine ⟨snapshotFrom bars lastB emaF emaS, ?_, rfl, rfl⟩
  rw [analyze_some_eq bars lastB b2 t vChg emaF emaS hrev h30]

/-- Witness for C7: on the claimed instance high 110, low 90, close 100
the pivot is 100, R1 is 110 and S1 is 90. -/
theorem pivot_formulas_witness :
    (constBars 30).reverse = mkBar 29 :: mkBar 28 :: (constBars 30).reverse.drop 2 ∧
    30 ≤ (constBars 30).length ∧
    (mkBar 29).high = 110 ∧ (mkBar 29).low = 90 ∧ (mkBar 29).close = 100 ∧
    ((mkBar 29).high + (mkBar 29).low + (mkBar 29).close) / 3 = 100 ∧
    (∃ i, (analyze_stock (some (constBars 30)) 0 9 21).2 = some i ∧
      i.res = 110 ∧ i.sup = 90) := by
  refine ⟨by decide, by decide, rfl, rfl, rfl, by norm_num [mkBar], ?_⟩
  obtain ⟨i, h1, h2, h3⟩ := pivot_formulas (constBars 30) (mkBar 29) (mkBar 28)
    ((constBars 30).reverse.drop 2) 0 9 21 (by decide) (by decide)
  refine ⟨i, h1, ?_, ?_⟩
  · rw [h2]
    norm_num [mkBar]
  · rw [h3]
    norm_num [mkBar]

/-- C8: `get_vix_status` returns exactly `(20, 0)` when the fetched series
is absent or has fewer than 2 bars, and otherwise the latest close paired
with the difference of the latest two closes. -/
theorem vix_status_rule :
    get_vix_status none = (20, 0) ∧
    (∀ bars : List Bar, bars.length < 2 → get_vix_status (some bars) = (20, 0)) ∧
    (∀ (bars : List Bar) (b1 b0 : Bar) (t : List Bar), bars.reverse = b1 :: b0 :: t →
      get_vix_status (some bars) = (b1.close, b1.close - b0.close)) := by
  refine ⟨rfl, ?_, ?_⟩
  · intro bars h
    match bars, h with
    | [], _ => rfl
    | [b], _ => rfl
    | a :: b :: t, h =>
      rw [List.length_cons, List.length_cons] at h
      exact absurd h (by omega)
  · intro bars b1 b0 t hrev
    simp only [get_vix_status]
    rw [hrev]

/-- Witness for C8: a 1-bar series falls back to `(20, 0)`; a 2-bar series
with closes 18 then 19 yields `(19, 19 - 18)`. -/
theorem vix_status_rule_witness :
    ((constBars 1).length < 2 ∧ get_vix_status (some (constBars 1)) = (20, 0)) ∧
    (vixSeries.reverse = flatBar 1 19 :: flatBar 0 18 :: [] ∧
      get_vix_status (some vixSeries) =
        ((flatBar 1 19).close, (flatBar 1 19).close - (flatBar 0 18).close)) :=
  ⟨⟨by decide, vix_status_rule.2.1 (constBars 1) (by decide)⟩,
    ⟨by decide, vix_status_rule.2.2 vixSeries (flatBar 1 19) (flatBar 0 18) [] (by decide)⟩⟩

/-- C9 counterexample: a constant 30-bar series has length at least 30,
strictly increasing timestamps and fast window 9 below slow window 21, yet
the snapshot carries no RSI value at all (the source computes 0/0 = NaN),
so its RSI does not lie in [0, 100]. -/
theorem rsi_undefined_on_constant :
    30 ≤ (constBars 30).length ∧
    timesIncr ((constBars 30).map Bar.time) = true ∧
    (9 : Nat) < 21 ∧
    ((analyze_stock (some (constBars 30)) 0 9 21).2.map Info.rsi) = some none := by
  refine ⟨by decide, by decide, by decide, ?_⟩
  rw [analyze_some_eq (constBars 30) (mkBar 29) (mkBar 28)
    ((constBars 30).reverse.drop 2) 0 9 21 (by decide) (by decide)]
  show some (snapshotFrom (constBars 30) (mkBar 29) 9 21).rsi = some none
  rw [snapshotFrom_rsi, closes_constBars]
  rw [rsiLast_replicate 100 30 (by omega)]

/-- C9 as amended: for every accepted series with strictly increasing
timestamps, fast window below slow window and non-negative volumes, the
snapshot RSI lies in [0, 100] whenever it is defined, and the volume ratio
is defined and non-negative. -/
theorem rsi_vol_bounds (bars : List Bar) (lastB b2 : Bar) (t : List Bar) (vChg : ℚ)
    (emaF emaS : Nat) (hrev : bars.reverse = lastB :: b2 :: t) (h30 : 30 ≤ bars.length)
    (hinc : timesIncr (bars.map Bar.time) = true) (hfs : emaF < emaS)
    (hvol : ∀ b ∈ bars, 0 ≤ b.volume) :
    ∃ i, (analyze_stock (some bars) vChg emaF emaS).2 = some i ∧
      (∀ r, i.rsi = some r → 0 ≤ r ∧ r ≤ 100) ∧
      (∃ q, i.volRatio = some q ∧ 0 ≤ q) := by
  have hvlen : (volumes bars).length = bars.length := by simp [volumes]
  have hsma := smaLast_some 10 (volumes bars) (by omega) (by omega)
  have hm : 0 ≤ ((volumes bars).drop ((volumes bars).length - 10)).sum / ((10 : Nat) : ℚ) := by
    refine div_nonneg (List.sum_nonneg fun x hx => ?_) (Nat.cast_nonneg 10)
    obtain ⟨b, hb, rfl⟩ := List.mem_map.1 (List.mem_of_mem_drop hx)
    exact hvol b hb
  refine ⟨snapshotFrom bars lastB emaF emaS, ?_, ?_, ?_⟩
  · rw [analyze_some_eq bars lastB b2 t vChg emaF emaS hrev h30]
  · intro r hr
    rw [snapshotFrom_rsi] at hr
    exact rsiLast_bounds _ _ hr
  · rw [snapshotFrom_volRatio]
    simp only [hsma]
    split_ifs with h0
    · have hlast : lastB ∈ bars := by
        have : lastB ∈ bars.reverse := by
          rw [hrev]
          exact List.mem_cons_self _ _
        exact List.mem_reverse.1 this
      exact ⟨_, rfl, div_nonneg (hvol lastB hlast) hm⟩
    · exact ⟨1, rfl, by norm_num⟩

/-- Witness for the amended C9 at a concrete 30-bar series. -/
theorem rsi_vol_bounds_witness :
    (constBars 30).reverse = mkBar 29 :: mkBar 28 :: (constBars 30).reverse.drop 2 ∧
    30 ≤ (constBars 30).length ∧
    timesIncr ((constBars 30).map Bar.time) = true ∧
    (9 : Nat) < 21 ∧
    (∀ b ∈ constBars 30, 0 ≤ b.volume) ∧
    (∃ i, (analyze_stock (some (constBars 30)) 0 9 21).2 = some i ∧
      (∀ r, i.rsi = some r → 0 ≤ r ∧ r ≤ 100) ∧
      (∃ q, i.volRatio = some q ∧ 0 ≤ q)) :=
  ⟨by decide, by decide, by decide, by decide, by decide,
    rsi_vol_bounds (constBars 30) (mkBar 29) (mkBar 28)
      ((constBars 30).reverse.drop 2) 0 9 21 (by decide) (by decide) (by decide)
      (by decide) (by decide)⟩

/-- C10: invoking `analyze_stock` on the absent-series sentinel returns
the no-result pair `(none, none)` without failing. -/
theorem analyze_none_input (vChg : ℚ) (emaF emaS : Nat) :
    analyze_stock none vChg emaF emaS = (none, none) := rfl
